import Mathlib

/-!
Verification development for the jumppad resource-lifecycle subsystem.

The Go sources are shallowly embedded:
* `pkg/utils/dirhash/hash.go` (content hasher): Go strings are modelled as
  `List Char`, byte slices as `List UInt8`, and the SHA-256 / hex / base64
  primitives as an abstract bundle of functions (`HashPrims`), since every
  property of interest is independent of the concrete digest functions.
* `pkg/clients/command.go` (process executor): the goroutine/timer race is
  modelled with explicit times (in milliseconds); the behaviour of the
  external `gohup` process library is a parameter (`ProcBehavior`).
* `pkg/config/resources/exec/provider.go` and the `Process` hooks: direct
  functional translations, with the state store passed explicitly.

The file is organised as: all definitions first, then all theorems.
-/

namespace Jumppad

/-- Go strings, modelled as their character sequence. -/
abbrev GoStr := List Char

/-- Go error values; only their message is relevant here. -/
abbrev GoErr := String

/-- Conversion from a Lean string literal to an embedded Go string. -/
def toGoStr (s : String) : GoStr := s.data

namespace dirhash

/-- Abstract digest primitives used by `Hash1`: SHA-256 over bytes, hex
encoding of a byte hash, and standard base64 encoding.  `Hash1`'s structure
(copying, sorting, summary-line format) is independent of these. -/
structure HashPrims where
  sha256 : List UInt8 → List UInt8
  hexStr : List UInt8 → GoStr
  b64Str : List UInt8 → GoStr

/-- Byte view of an embedded Go string (Go strings are byte slices). -/
def strBytes (s : GoStr) : List UInt8 := s.map (fun c => UInt8.ofNat c.toNat)

/-- Comparison used by Go's `sort.Strings`: lexicographic order. -/
def strLe (a b : GoStr) : Bool := decide (a ≤ b)

/-- Model of `sort.Strings`: sort the list lexicographically. -/
def sortStrings (l : List GoStr) : List GoStr := l.mergeSort strLe

/-- The summary fed to the outer hash in `Hash1`: for each file (in the given
order) the line `<hex-content-hash><two spaces><name><newline>`; a name
containing a newline, or a failing `open`, aborts with an error
(`hash.go:55-70`). -/
def summary (prims : HashPrims) (openF : GoStr → Except GoErr (List UInt8)) :
    List GoStr → Except GoErr GoStr
  | [] => .ok []
  | f :: rest =>
    if f.contains '\n' then
      .error "dirhash: filenames with newlines are not supported"
    else
      match openF f with
      | .error e => .error e
      | .ok content =>
        match summary prims openF rest with
        | .error e => .error e
        | .ok tail =>
          .ok (prims.hexStr (prims.sha256 content) ++ toGoStr "  " ++ f
                ++ ['\n'] ++ tail)

/-- Digest of an already sorted file list (`hash.go:55-71` after the sort). -/
def hash1Sorted (prims : HashPrims) (openF : GoStr → Except GoErr (List UInt8))
    (sorted : List GoStr) : Except GoErr GoStr :=
  match summary prims openF sorted with
  | .error e => .error e
  | .ok sm => .ok (toGoStr "h1:" ++ prims.b64Str (prims.sha256 (strBytes sm)))

/-- Model of `Hash1` (`hash.go:51-72`): copy the caller's list
(`files = append([]string(nil), files...)`), sort it with `sort.Strings`,
and hash the summary. -/
def Hash1 (prims : HashPrims) (files : List GoStr)
    (openF : GoStr → Except GoErr (List UInt8)) : Except GoErr GoStr :=
  hash1Sorted prims openF (sortStrings (List.nil ++ files))

/-- Concrete instantiation of the digest primitives for witnesses. -/
def trivPrims : HashPrims := ⟨fun b => b, fun _ => [], fun _ => []⟩

/-- Model of Go's `strings.HasPrefix`: `isPre pre s` holds when `pre` is a
prefix of `s`. -/
def isPre : GoStr → GoStr → Bool
  | [], _ => true
  | _ :: _, [] => false
  | a :: ps, b :: ss => a == b && isPre ps ss

/-- Model of `filepath.Join` for two already clean components. -/
def joinPath (p q : GoStr) : GoStr :=
  if p = [] then q else if q = [] then p else p ++ '/' :: q

/-- Model of `filepath.ToSlash`; the identity since the modelled host's path
separator is already a forward slash. -/
def toSlash (s : GoStr) : GoStr := s

/-- The name rewriting applied to each surviving file (`hash.go:129-134`):
make the path relative to `dir` (unless `dir` is `.`), re-root it under the
given logical root, and normalize separators. -/
def transformName (dir pfx f : GoStr) : GoStr :=
  toSlash (joinPath pfx (if dir = toGoStr "." then f else f.drop (dir.length + 1)))

/-- First-match test of the ignore-glob loop (`hash.go:103-114`); the glob
matcher itself (`ryanuber/go-glob`, an external dependency) is a parameter. -/
def anyGlob (matcher : GoStr → GoStr → Bool) (ignore : List GoStr) (f : GoStr) : Bool :=
  ignore.any fun g => matcher g f

/-- Test of the ignored-directories loop (`hash.go:123-127`). -/
def anyPre (ign : List GoStr) (f : GoStr) : Bool :=
  ign.any fun i => isPre i f

/-- Mutable state of the `DirFiles` walk callback: the accumulated
`ignoredDirectories` and `files` slices. -/
structure WalkState where
  ignoredDirectories : List GoStr
  files : List GoStr
deriving DecidableEq

/-- One invocation of the `DirFiles` walk callback (`hash.go:97-136`) on an
entry `(path, isDir)`: a path matching an ignore glob is skipped (and recorded
when it is a directory); other directories are skipped; a non-directory equal
to the walk root is an error; a path under a recorded ignored directory is
skipped; anything else is appended to `files` after name rewriting. -/
def dfStep (matcher : GoStr → GoStr → Bool) (ignore : List GoStr) (dir pfx : GoStr)
    (s : WalkState) (e : GoStr × Bool) : Except GoErr WalkState :=
  if anyGlob matcher ignore e.1 then
    .ok (if e.2 then ⟨s.ignoredDirectories ++ [e.1], s.files⟩ else s)
  else if e.2 then .ok s
  else if e.1 = dir then .error "is not a directory"
  else if anyPre s.ignoredDirectories e.1 then .ok s
  else .ok ⟨s.ignoredDirectories, s.files ++ [transformName dir pfx e.1]⟩

/-- Folding the walk callback over the sequence of visited entries, stopping
at the first error (a callback error aborts `symwalk.Walk`). -/
def dfRun (matcher : GoStr → GoStr → Bool) (ignore : List GoStr) (dir pfx : GoStr) :
    List (GoStr × Bool) → WalkState → Except GoErr WalkState
  | [], s => .ok s
  | e :: rest, s =>
    match dfStep matcher ignore dir pfx s e with
    | .error err => .error err
    | .ok s' => dfRun matcher ignore dir pfx rest s'

/-- Model of `DirFiles` (`hash.go:93-141`) over the entry sequence produced by
the walk: run the callback from empty state and return the collected files. -/
def DirFiles (matcher : GoStr → GoStr → Bool) (ignore : List GoStr) (dir pfx : GoStr)
    (entries : List (GoStr × Bool)) : Except GoErr (List GoStr) :=
  match dfRun matcher ignore dir pfx entries ⟨[], []⟩ with
  | .error e => .error e
  | .ok s => .ok s.files

/-- A node of a directory tree, used to model `symwalk.Walk`'s enumeration. -/
inductive FSNode where
  | file (name : GoStr)
  | dir (name : GoStr) (children : List FSNode)

mutual
/-- Entries visited by `symwalk.Walk` below a parent path: each node is
visited before its children (preorder). -/
def walkNode (parent : GoStr) : FSNode → List (GoStr × Bool)
  | .file n => [(joinPath parent n, false)]
  | .dir n cs => (joinPath parent n, true) :: walkNodes (joinPath parent n) cs

/-- Entries visited for a list of sibling nodes, in order. -/
def walkNodes (parent : GoStr) : List FSNode → List (GoStr × Bool)
  | [] => []
  | c :: cs => walkNode parent c ++ walkNodes parent cs
end

/-- Entries visited by `symwalk.Walk(dir, ...)` over a tree rooted at `dir`:
the root directory itself, then its subtree in preorder. -/
def walkTree (dir : GoStr) (cs : List FSNode) : List (GoStr × Bool) :=
  (dir, true) :: walkNodes dir cs

/-- Relation between the walk states of a run that processed an ignored
subtree and a run that skipped it: same collected files, and the first run's
ignored directories exceed the second's only by paths below the ignored
directory `d`, which the second run also recorded. -/
def IgnRel (d : GoStr) (s₁ s₂ : WalkState) : Prop :=
  s₁.files = s₂.files ∧ d ∈ s₂.ignoredDirectories ∧
    (∀ x, x ∈ s₂.ignoredDirectories → x ∈ s₁.ignoredDirectories) ∧
    (∀ x, x ∈ s₁.ignoredDirectories → x ∈ s₂.ignoredDirectories ∨ isPre d x = true)

/-- Model of `strings.TrimPrefix`. -/
def trimPfx (s pre : GoStr) : GoStr :=
  if isPre pre s then s.drop pre.length else s

/-- The opener `HashDir` passes to the hash function (`hash.go:83-85`): read
the path under `dir` obtained by stripping the logical root from the name;
the ambient filesystem is the function `readFile`. -/
def osOpen (dir pfx : GoStr) (readFile : GoStr → Except GoErr (List UInt8))
    (name : GoStr) : Except GoErr (List UInt8) :=
  readFile (joinPath dir (trimPfx name pfx))

/-- Model of `HashDir` (`hash.go:78-87`) over the walk's entry sequence:
collect the surviving files and hash them, opening each file through the
ambient filesystem. -/
def HashDir (prims : HashPrims) (matcher : GoStr → GoStr → Bool)
    (ignore : List GoStr) (dir pfx : GoStr) (entries : List (GoStr × Bool))
    (readFile : GoStr → Except GoErr (List UInt8)) : Except GoErr GoStr :=
  match DirFiles matcher ignore dir pfx entries with
  | .error e => .error e
  | .ok files => Hash1 prims files (osOpen dir pfx readFile)

/-- An entry of a zip archive: a name, decompressed contents, and metadata
(compression method, modification time) that `HashZip` never reads. -/
structure ZipEntry where
  name : GoStr
  contents : List UInt8
  method : Nat
  modTime : Nat

/-- The name-to-entry map built by `HashZip` (`hash.go:154-158`): iterating
the archive in order, a later entry with the same name overwrites an earlier
one. -/
def zipLookup (zs : List ZipEntry) (n : GoStr) : Option ZipEntry :=
  zs.foldl (fun acc e => if e.name == n then some e else acc) none

/-- The opener `HashZip` passes to the hash function (`hash.go:159-165`):
look the name up in the archive map and return the entry's contents. -/
def zipOpen (zs : List ZipEntry) (n : GoStr) : Except GoErr (List UInt8) :=
  match zipLookup zs n with
  | none => .error "file not found in zip"
  | some f => .ok f.contents

/-- Model of `HashZip` (`hash.go:147-167`): hash the archive's entry names in
archive order, opening each through the archive. -/
def HashZip (prims : HashPrims) (zs : List ZipEntry) : Except GoErr GoStr :=
  Hash1 prims (zs.map (·.name)) (zipOpen zs)

/-- Projection of a zip entry to the data `HashZip` can observe. -/
def zipData (e : ZipEntry) : GoStr × List UInt8 := (e.name, e.contents)

/-- A heap of Go string slices, used to state that `Hash1` never mutates its
caller's slice; `next` is the next unused reference. -/
structure SliceHeap where
  store : Nat → List GoStr
  next : Nat

/-- Heap update at a single reference. -/
def hWrite (f : Nat → List GoStr) (i : Nat) (v : List GoStr) : Nat → List GoStr :=
  fun j => if j = i then v else f j

/-- Slice-level model of `Hash1` (`hash.go:52-54`): the statement
`files = append([]string(nil), files...)` allocates a fresh backing array
holding a copy of the caller's slice `r`, `sort.Strings(files)` then sorts
the fresh slice in place, and the hash loop reads the fresh slice.  Returns
the digest and the final heap. -/
def Hash1Heap (prims : HashPrims) (h : SliceHeap) (r : Nat)
    (openF : GoStr → Except GoErr (List UInt8)) :
    Except GoErr GoStr × SliceHeap :=
  let fresh := h.next
  let h1 : SliceHeap := ⟨hWrite h.store fresh (List.nil ++ h.store r), h.next + 1⟩
  let h2 : SliceHeap := ⟨hWrite h1.store fresh (sortStrings (h1.store fresh)), h1.next⟩
  (hash1Sorted prims openF (h2.store fresh), h2)

end dirhash

namespace clients

/-- Model of `CommandConfig` (`command.go:15-22`); `Env = none` models a nil
Go slice and `some` a non-nil one (`command.go:57` tests `config.Env != nil`). -/
structure CommandConfig where
  Command : String
  Args : List String
  Env : Option (List String)
  WorkingDirectory : String
  RunInBackground : Bool
  LogFilePath : String
deriving DecidableEq

/-- The distinguished timeout error (`command.go:13`). -/
def ErrorCommandTimeout : GoErr := "Command timed out before completing"

/-- The environment handed to `gohup.Options` (`command.go:54-59`): the
ambient process environment, extended — when `config.Env` is non-nil — by
`config.Args` (the source appends `config.Args...`, not `config.Env...`,
under the `config.Env != nil` guard). -/
def buildEnv (environ : List String) (config : CommandConfig) : List String :=
  match config.Env with
  | none => environ
  | some _ => environ ++ config.Args

/-- Environment construction as the specification describes it: the ambient
environment extended by exactly the configured `Env` entries.  Declared only
to compare against `buildEnv`. -/
def envPerSpec (environ : List String) (config : CommandConfig) : List String :=
  environ ++ config.Env.getD []

/-- Status reported by `gohup.QueryStatus`; the monitoring loop only tests
for `StatusStopped`, every other status keeps it polling. -/
inductive GStatus where
  | running
  | stopped
deriving DecidableEq

/-- Timed behaviour of the external process during one `Execute` call: the
outcome of `lp.Start` (an error, or a pid and pidfile), the time in
milliseconds from invocation at which `Start` returns, and the result of the
`i`-th `lp.QueryStatus` poll (the loop polls every 200 ms, starting at the
start time). -/
structure ProcBehavior where
  start : Except GoErr (Int × String)
  startTime : Nat
  query : Nat → Except GoErr GStatus

/-- Whether the `i`-th poll ends the monitoring loop (`command.go:93-104`):
a query error sends on the done channel, and `StatusStopped` breaks the loop
followed by the final send. -/
def pollExit (q : Nat → Except GoErr GStatus) (i : Nat) : Bool :=
  match q i with
  | .error _ => true
  | .ok .stopped => true
  | .ok .running => false

/-- The error carried by the done message sent after poll `i`. -/
def pollErr (q : Nat → Except GoErr GStatus) (i : Nat) : Option GoErr :=
  match q i with
  | .error e => some e
  | .ok _ => none

/-- First poll index at or after `i` that ends the monitoring loop, searched
over the next `fuel` polls. -/
def searchExit (q : Nat → Except GoErr GStatus) : Nat → Nat → Option Nat
  | _, 0 => none
  | i, fuel + 1 => if pollExit q i then some i else searchExit q (i + 1) fuel

/-- Result of one `Execute` call: the returned pid and error, and whether the
timeout branch issued `lp.Stop` on the pidfile before returning
(`command.go:110-117`). -/
structure ExecResult where
  pid : Int
  err : Option GoErr
  stopIssued : Bool
deriving DecidableEq

/-- Model of `CommandImpl.Execute` (`command.go:46-118`) for one process
behaviour under the executor's timeout (ms).  The goroutine sends on the done
channel when the start fails, as soon as the start completes in background
mode, or at the first loop-ending poll in foreground mode; `select` races
that send against `time.After(timeout)`, the strictly earlier event winning.
On timeout the returned pid is the started pid when the start had completed
by then, else 0, and `lp.Stop` is issued.  The search horizon `timeout`
suffices because poll `i` happens at time `startTime + 200 * i ≥ i`, so a
first exit at an index `≥ timeout` cannot beat the timer. -/
def Execute (timeout : Nat) (config : CommandConfig) (beh : ProcBehavior) :
    ExecResult :=
  match beh.start with
  | .error e =>
    if beh.startTime < timeout then ⟨0, some e, false⟩
    else ⟨0, some ErrorCommandTimeout, true⟩
  | .ok (pid, _pidfile) =>
    if config.RunInBackground then
      if beh.startTime < timeout then ⟨pid, none, false⟩
      else ⟨0, some ErrorCommandTimeout, true⟩
    else
      match searchExit beh.query 0 timeout with
      | some i =>
        if beh.startTime + 200 * i < timeout then
          ⟨pid, pollErr beh.query i, false⟩
        else ⟨if beh.startTime < timeout then pid else 0,
          some ErrorCommandTimeout, true⟩
      | none => ⟨if beh.startTime < timeout then pid else 0,
          some ErrorCommandTimeout, true⟩

/-- The done-channel send occurs strictly before the timer fires
(`command.go:110-117`): a start failure before the timeout, a background
start completing before the timeout, or — in foreground — a first
loop-ending poll happening before the timeout. -/
def DoneBeforeTimeout (timeout : Nat) (config : CommandConfig)
    (beh : ProcBehavior) : Prop :=
  (∃ e, beh.start = .error e ∧ beh.startTime < timeout) ∨
    (∃ pid pf, beh.start = .ok (pid, pf) ∧ config.RunInBackground = true ∧
      beh.startTime < timeout) ∨
    (∃ pid pf i, beh.start = .ok (pid, pf) ∧ config.RunInBackground = false ∧
      pollExit beh.query i = true ∧ (∀ j, j < i → pollExit beh.query j = false) ∧
      beh.startTime + 200 * i < timeout)

end clients

namespace resources

/-- Subset of `types.ResourceMetadata` relevant here. -/
structure ResourceMetadata where
  ID : String
  Name : String
  File : String
deriving DecidableEq

/-- A path is absolute when it begins with a forward slash. -/
def isAbsPath (path : String) : Bool :=
  match path.data with
  | [] => false
  | c :: _ => c == '/'

/-- Modelled from the spec: `ensureAbsolute` (jumppad's path helper, whose
source is not under `src/`) rewrites a relative path to an absolute one using
the resource's declaring location. -/
def ensureAbsolute (path file : String) : String :=
  if isAbsPath path then path else file ++ "/" ++ path

/-- The `random_uuid` resource (`unnamed/part_000:12-17`); `Value` is its
generated output. -/
structure RandomUUID where
  meta : ResourceMetadata
  Value : String
deriving DecidableEq

/-- The `nomad_job` resource; `JobChecksums` is its computed output. -/
structure NomadJob where
  meta : ResourceMetadata
  Cluster : String
  Paths : List String
  JobChecksums : List String
deriving DecidableEq

/-- A container volume attached to an exec resource. -/
structure Volume where
  Source : String
  Destination : String
deriving DecidableEq

/-- A network attachment of an exec resource. -/
structure NetworkAttachment where
  Name : String
deriving DecidableEq

/-- The `exec` resource, with the fields its provider and `Process` hook
read; `PID` is its computed output. -/
structure Exec where
  meta : ResourceMetadata
  Script : String
  Daemon : Bool
  Image : Option String
  Target : Option String
  Volumes : List Volume
  Networks : List NetworkAttachment
  PID : Int
deriving DecidableEq

/-- A resource record in the persisted state. -/
inductive StateResource where
  | uuid (u : RandomUUID)
  | nomad (n : NomadJob)
  | exec (e : Exec)
deriving DecidableEq

/-- Stable id of a state record. -/
def StateResource.rid : StateResource → String
  | .uuid u => u.meta.ID
  | .nomad n => n.meta.ID
  | .exec e => e.meta.ID

/-- The loaded state: the recorded resources (the blueprint reference plays
no role here). -/
structure ConfigState where
  resources : List StateResource
deriving DecidableEq

/-- Model of `FindResource`: look a record up by stable id, reporting
not-found as `none` rather than an error. -/
def FindResource (c : ConfigState) (id : String) : Option StateResource :=
  c.resources.find? (fun r => r.rid == id)

/-- Model of `RandomUUID.Process` (`unnamed/part_000:19-33`): when the state
loads and holds a record for this id, copy the previously generated `Value`
into the resource; a load error or a missing record leaves it unchanged, and
the hook returns nil either way.  The outer `none` models the Go panic of the
unchecked type assertion on a record of another type. -/
def RandomUUID.Process (load : Except GoErr ConfigState) (c : RandomUUID) :
    Option (RandomUUID × Option GoErr) :=
  match load with
  | .error _ => some (c, none)
  | .ok cfg =>
    match FindResource cfg c.meta.ID with
    | none => some (c, none)
    | some (.uuid st) => some ({ c with Value := st.Value }, none)
    | some _ => none

/-- Model of `NomadJob.Process` (resources package, second part of the
`hash.go` source file): make the paths absolute, then copy `JobChecksums`
from the state record when one exists; returns nil either way. -/
def NomadJob.Process (load : Except GoErr ConfigState) (n : NomadJob) :
    Option (NomadJob × Option GoErr) :=
  let n := { n with Paths := n.Paths.map (fun p => ensureAbsolute p n.meta.File) }
  match load with
  | .error _ => some (n, none)
  | .ok cfg =>
    match FindResource cfg n.meta.ID with
    | none => some (n, none)
    | some (.nomad st) => some ({ n with JobChecksums := st.JobChecksums }, none)
    | some _ => none

/-- Modelled from the spec: `Exec.Process` is not under `src/` (only its test
`resource_test.go` is).  Per spec section 4.4 and the tests, it rewrites
relative volume sources to absolute paths, rejects mutually exclusive options
(file-system volumes or networks combined with a purely local execution
target) with a descriptive error, and rehydrates the recorded `PID` from the
state store. -/
def Exec.Process (load : Except GoErr ConfigState) (c : Exec) :
    Option (Exec × Option GoErr) :=
  let vs := c.Volumes.map (fun v =>
    { v with Source := ensureAbsolute v.Source c.meta.File })
  let c := { c with Volumes := vs }
  if c.Image = none ∧ c.Target = none ∧ (c.Volumes ≠ [] ∨ c.Networks ≠ []) then
    some (c, some "unable to use volumes or networks with local exec")
  else
    match load with
    | .error _ => some (c, none)
    | .ok cfg =>
      match FindResource cfg c.meta.ID with
      | none => some (c, none)
      | some (.exec st) => some ({ c with PID := st.PID }, none)
      | some _ => none

/-- The exec provider (`provider.go:24-29`), holding its bound config. -/
structure ExecProvider where
  config : Exec

/-- Model of `Provider.Changed` (`provider.go:102-106`): it logs and returns
`false, nil` unconditionally, consulting neither the config nor the state. -/
def ExecProvider.Changed (_p : ExecProvider) : Bool × Option GoErr :=
  (false, none)

/-- Model of `Provider.Destroy` (`provider.go:74-90`): only a daemonized
local exec (no image, no target) is stopped; a recorded pid below 1 yields a
warning and success; a failing `Kill` yields a warning and success.  The
second component collects the warnings logged. -/
def ExecProvider.Destroy (p : ExecProvider) (kill : Int → Option GoErr) :
    Option GoErr × List String :=
  if p.config.Daemon = true ∧ p.config.Image = none ∧ p.config.Target = none then
    if p.config.PID < 1 then (none, ["unable to stop local process, no pid"])
    else
      match kill p.config.PID with
      | some _ => (none, ["error cleaning up daemonized process"])
      | none => (none, [])
  else (none, [])

end resources


end Jumppad

namespace Jumppad

open dirhash

/-- Sorting with `sort.Strings` is invariant under permutation of the input:
both sides sort to the unique lexicographically ordered arrangement. -/
theorem sortStrings_eq_of_perm {l₁ l₂ : List GoStr} (h : l₁.Perm l₂) :
    sortStrings l₁ = sortStrings l₂ := by
  have htrans : ∀ a b c : GoStr, strLe a b = true → strLe b c = true →
      strLe a c = true := by
    intro a b c hab hbc
    have h1 : a ≤ b := of_decide_eq_true hab
    have h2 : b ≤ c := of_decide_eq_true hbc
    exact decide_eq_true (le_trans h1 h2)
  have htotal : ∀ a b : GoStr, (strLe a b || strLe b a) = true := by
    intro a b
    rcases le_total a b with h' | h'
    · simp [strLe, h']
    · simp [strLe, h']
  haveI : IsAntisymm GoStr (· ≤ ·) := ⟨fun _ _ ha hb => le_antisymm ha hb⟩
  apply List.eq_of_perm_of_sorted (r := (· ≤ ·))
  · exact ((List.mergeSort_perm l₁ strLe).trans h).trans
      (List.mergeSort_perm l₂ strLe).symm
  · exact (List.sorted_mergeSort htrans htotal l₁).imp
      (fun hab => of_decide_eq_true hab)
  · exact (List.sorted_mergeSort htrans htotal l₂).imp
      (fun hab => of_decide_eq_true hab)

/-- C5: for every list of file names with fixed per-file contents, `Hash1`
returns the same digest for every permutation of the input list (it sorts the
names lexicographically before hashing), so `HashDir` over an unchanged tree
is deterministic and independent of filesystem enumeration order. -/
theorem hash1_perm_invariant (prims : HashPrims)
    (openF : GoStr → Except GoErr (List UInt8))
    (l₁ l₂ : List GoStr) (h : l₁.Perm l₂) :
    Hash1 prims l₁ openF = Hash1 prims l₂ openF := by
  unfold Hash1
  rw [List.nil_append, List.nil_append, sortStrings_eq_of_perm h]

/-- Witness for C5 at a concrete permutation. -/
theorem hash1_perm_invariant_witness :
    ([['b'], ['a']] : List GoStr).Perm [['a'], ['b']] ∧
      Hash1 trivPrims [['b'], ['a']] (fun _ => .ok []) =
        Hash1 trivPrims [['a'], ['b']] (fun _ => .ok []) :=
  ⟨by decide, hash1_perm_invariant trivPrims (fun _ => .ok [])
    [['b'], ['a']] [['a'], ['b']] (by decide)⟩

/-- Prefix test is transitive. -/
theorem isPre_trans : ∀ a b c : GoStr, isPre a b = true → isPre b c = true →
    isPre a c = true := by
  intro a
  induction a with
  | nil => intro b c _ _; rfl
  | cons x ps ih =>
    intro b c h1 h2
    cases b with
    | nil => simp [isPre] at h1
    | cons y ss =>
      cases c with
      | nil => simp [isPre] at h2
      | cons z ts =>
        simp only [isPre, Bool.and_eq_true, beq_iff_eq] at h1 h2 ⊢
        exact ⟨h1.1.trans h2.1, ih _ _ h1.2 h2.2⟩

/-- A list is a prefix of itself extended by anything. -/
theorem isPre_append (a x : GoStr) : isPre a (a ++ x) = true := by
  induction a with
  | nil => rfl
  | cons c cs ih => simp [isPre, ih]

/-- Unfolding lemma for `dfRun` on a cons cell. -/
theorem dfRun_cons (matcher : GoStr → GoStr → Bool) (ignore : List GoStr)
    (dir pfx : GoStr) (e : GoStr × Bool) (rest : List (GoStr × Bool)) (s : WalkState) :
    dfRun matcher ignore dir pfx (e :: rest) s =
      match dfStep matcher ignore dir pfx s e with
      | .error err => .error err
      | .ok s' => dfRun matcher ignore dir pfx rest s' := rfl

/-- Running the callback over an appended entry sequence is sequencing. -/
theorem dfRun_append (matcher : GoStr → GoStr → Bool) (ignore : List GoStr)
    (dir pfx : GoStr) (l₁ l₂ : List (GoStr × Bool)) (s : WalkState) :
    dfRun matcher ignore dir pfx (l₁ ++ l₂) s =
      match dfRun matcher ignore dir pfx l₁ s with
      | .error e => .error e
      | .ok t => dfRun matcher ignore dir pfx l₂ t := by
  induction l₁ generalizing s with
  | nil => simp [dfRun]
  | cons e rest ih =>
    rw [List.cons_append, dfRun_cons, dfRun_cons]
    cases dfStep matcher ignore dir pfx s e with
    | error err => rfl
    | ok s' => exact ih s'

/-- Processing entries that all lie strictly below an already recorded ignored
directory `d` collects no files and records only directories below `d`. -/
theorem dfRun_subtree (matcher : GoStr → GoStr → Bool) (ignore : List GoStr)
    (dir pfx d : GoStr) :
    ∀ (lsub : List (GoStr × Bool)) (s : WalkState),
      d ∈ s.ignoredDirectories →
      (∀ p b, (p, b) ∈ lsub → isPre (d ++ ['/']) p = true ∧ p ≠ dir) →
      ∃ ex, dfRun matcher ignore dir pfx lsub s =
          .ok ⟨s.ignoredDirectories ++ ex, s.files⟩ ∧ ∀ x ∈ ex, isPre d x = true := by
  intro lsub
  induction lsub with
  | nil =>
    intro s _ _
    exact ⟨[], by simp [dfRun], by simp⟩
  | cons e rest ih =>
    intro s hd hsub
    obtain ⟨p, b⟩ := e
    obtain ⟨hp, hpd⟩ := hsub p b (List.mem_cons_self _ _)
    have hdp : isPre d p = true := isPre_trans _ _ _ (isPre_append d ['/']) hp
    have hrest : ∀ q c, (q, c) ∈ rest → isPre (d ++ ['/']) q = true ∧ q ≠ dir :=
      fun q c hqc => hsub q c (List.mem_cons_of_mem _ hqc)
    by_cases hg : anyGlob matcher ignore p = true
    · cases b with
      | true =>
        have hstep : dfStep matcher ignore dir pfx s (p, true) =
            .ok ⟨s.ignoredDirectories ++ [p], s.files⟩ := by
          simp [dfStep, hg]
        obtain ⟨ex, hrun, hex⟩ :=
          ih ⟨s.ignoredDirectories ++ [p], s.files⟩ (by simp [hd]) hrest
        refine ⟨p :: ex, ?_, ?_⟩
        · rw [dfRun_cons, hstep]
          exact hrun.trans (by simp [List.append_assoc])
        · intro x hx
          rcases List.mem_cons.mp hx with h' | h'
          · subst h'; exact hdp
          · exact hex x h'
      | false =>
        have hstep : dfStep matcher ignore dir pfx s (p, false) = .ok s := by
          simp [dfStep, hg]
        obtain ⟨ex, hrun, hex⟩ := ih s hd hrest
        exact ⟨ex, by rw [dfRun_cons, hstep]; exact hrun, hex⟩
    · cases b with
      | true =>
        have hstep : dfStep matcher ignore dir pfx s (p, true) = .ok s := by
          simp [dfStep, hg]
        obtain ⟨ex, hrun, hex⟩ := ih s hd hrest
        exact ⟨ex, by rw [dfRun_cons, hstep]; exact hrun, hex⟩
      | false =>
        have hpre : anyPre s.ignoredDirectories p = true :=
          List.any_eq_true.mpr ⟨d, hd, hdp⟩
        have hstep : dfStep matcher ignore dir pfx s (p, false) = .ok s := by
          simp [dfStep, hg, hpd, hpre]
        obtain ⟨ex, hrun, hex⟩ := ih s hd hrest
        exact ⟨ex, by rw [dfRun_cons, hstep]; exact hrun, hex⟩

/-- The suppression test agrees across `IgnRel`-related states. -/
theorem anyPre_congr {d : GoStr} {s₁ s₂ : WalkState} (h : IgnRel d s₁ s₂)
    (p : GoStr) :
    anyPre s₁.ignoredDirectories p = anyPre s₂.ignoredDirectories p := by
  obtain ⟨-, hd, h21, h12⟩ := h
  have himp1 : anyPre s₂.ignoredDirectories p = true →
      anyPre s₁.ignoredDirectories p = true := by
    intro h2
    obtain ⟨i, hi, hip⟩ := List.any_eq_true.mp h2
    exact List.any_eq_true.mpr ⟨i, h21 i hi, hip⟩
  have himp2 : anyPre s₁.ignoredDirectories p = true →
      anyPre s₂.ignoredDirectories p = true := by
    intro h1
    obtain ⟨i, hi, hip⟩ := List.any_eq_true.mp h1
    rcases h12 i hi with hmem | hdx
    · exact List.any_eq_true.mpr ⟨i, hmem, hip⟩
    · exact List.any_eq_true.mpr ⟨d, hd, isPre_trans d i p hdx hip⟩
  cases hb1 : anyPre s₁.ignoredDirectories p <;>
    cases hb2 : anyPre s₂.ignoredDirectories p <;> simp_all

/-- One callback step preserves `IgnRel`: related states either fail with the
same error or step to related states. -/
theorem dfStep_rel {matcher : GoStr → GoStr → Bool} {ignore : List GoStr}
    {dir pfx d : GoStr} {s₁ s₂ : WalkState} (h : IgnRel d s₁ s₂)
    (e : GoStr × Bool) :
    (∃ err, dfStep matcher ignore dir pfx s₁ e = .error err ∧
        dfStep matcher ignore dir pfx s₂ e = .error err) ∨
      (∃ t₁ t₂, dfStep matcher ignore dir pfx s₁ e = .ok t₁ ∧
        dfStep matcher ignore dir pfx s₂ e = .ok t₂ ∧ IgnRel d t₁ t₂) := by
  obtain ⟨p, b⟩ := e
  obtain ⟨hf, hd, h21, h12⟩ := h
  by_cases hg : anyGlob matcher ignore p = true
  · cases b with
    | true =>
      refine Or.inr ⟨⟨s₁.ignoredDirectories ++ [p], s₁.files⟩,
        ⟨s₂.ignoredDirectories ++ [p], s₂.files⟩,
        by simp [dfStep, hg], by simp [dfStep, hg], ?_⟩
      refine ⟨hf, by simp [hd], ?_, ?_⟩
      · intro x hx
        rcases List.mem_append.mp hx with h' | h'
        · exact List.mem_append.mpr (Or.inl (h21 x h'))
        · exact List.mem_append.mpr (Or.inr h')
      · intro x hx
        rcases List.mem_append.mp hx with h' | h'
        · rcases h12 x h' with h'' | h''
          · exact Or.inl (List.mem_append.mpr (Or.inl h''))
          · exact Or.inr h''
        · exact Or.inl (List.mem_append.mpr (Or.inr h'))
    | false =>
      exact Or.inr ⟨s₁, s₂, by simp [dfStep, hg], by simp [dfStep, hg],
        hf, hd, h21, h12⟩
  · cases b with
    | true =>
      exact Or.inr ⟨s₁, s₂, by simp [dfStep, hg], by simp [dfStep, hg],
        hf, hd, h21, h12⟩
    | false =>
      by_cases hdir : p = dir
      · subst hdir
        exact Or.inl ⟨"is not a directory", by simp [dfStep, hg],
          by simp [dfStep, hg]⟩
      · have hpre := anyPre_congr ⟨hf, hd, h21, h12⟩ p
        by_cases hp : anyPre s₂.ignoredDirectories p = true
        · have hp1 : anyPre s₁.ignoredDirectories p = true := hpre.trans hp
          exact Or.inr ⟨s₁, s₂, by simp [dfStep, hg, hdir, hp1],
            by simp [dfStep, hg, hdir, hp], hf, hd, h21, h12⟩
        · have hp1 : ¬ anyPre s₁.ignoredDirectories p = true := by
            rw [hpre]; exact hp
          refine Or.inr ⟨⟨s₁.ignoredDirectories,
              s₁.files ++ [transformName dir pfx p]⟩,
            ⟨s₂.ignoredDirectories, s₂.files ++ [transformName dir pfx p]⟩,
            by simp [dfStep, hg, hdir, hp1],
            by simp [dfStep, hg, hdir, hp], ?_⟩
          exact ⟨by simp [hf], hd, h21, h12⟩

/-- Running the callback over any entry sequence preserves `IgnRel`. -/
theorem dfRun_rel {matcher : GoStr → GoStr → Bool} {ignore : List GoStr}
    {dir pfx d : GoStr} :
    ∀ (l : List (GoStr × Bool)) (s₁ s₂ : WalkState), IgnRel d s₁ s₂ →
      (∃ err, dfRun matcher ignore dir pfx l s₁ = .error err ∧
          dfRun matcher ignore dir pfx l s₂ = .error err) ∨
        (∃ t₁ t₂, dfRun matcher ignore dir pfx l s₁ = .ok t₁ ∧
          dfRun matcher ignore dir pfx l s₂ = .ok t₂ ∧ IgnRel d t₁ t₂) := by
  intro l
  induction l with
  | nil => intro s₁ s₂ h; exact Or.inr ⟨s₁, s₂, rfl, rfl, h⟩
  | cons e rest ih =>
    intro s₁ s₂ h
    rcases @dfStep_rel matcher ignore dir pfx d s₁ s₂ h e with
      ⟨err, he1, he2⟩ | ⟨t₁, t₂, ht1, ht2, hrel⟩
    · exact Or.inl ⟨err, by rw [dfRun_cons, he1], by rw [dfRun_cons, he2]⟩
    · rcases ih t₁ t₂ hrel with ⟨err, he1, he2⟩ | ⟨u₁, u₂, hu1, hu2, hrel'⟩
      · exact Or.inl ⟨err, by rw [dfRun_cons, ht1]; exact he1,
          by rw [dfRun_cons, ht2]; exact he2⟩
      · exact Or.inr ⟨u₁, u₂, by rw [dfRun_cons, ht1]; exact hu1,
          by rw [dfRun_cons, ht2]; exact hu2, hrel'⟩

/-- C6: for every walk (in particular any walk of a directory tree, where a
directory is enumerated before its subtree) and every ignore-glob list, if a
directory's path matches an ignore glob then the files beneath that directory
contribute nothing to `DirFiles`' result — the result equals the result for
the walk with the entire subtree removed — even when the individual files
beneath it match no glob themselves. -/
theorem dirFiles_ignored_dir_transitive (matcher : GoStr → GoStr → Bool)
    (ignore : List GoStr) (dir pfx g d : GoStr)
    (l₁ lsub l₂ : List (GoStr × Bool))
    (hg : g ∈ ignore) (hm : matcher g d = true)
    (hsub : ∀ p b, (p, b) ∈ lsub → isPre (d ++ ['/']) p = true ∧ p ≠ dir) :
    DirFiles matcher ignore dir pfx (l₁ ++ (d, true) :: (lsub ++ l₂)) =
      DirFiles matcher ignore dir pfx (l₁ ++ (d, true) :: l₂) := by
  unfold DirFiles
  cases h1 : dfRun matcher ignore dir pfx l₁ ⟨[], []⟩ with
  | error e => rw [dfRun_append, dfRun_append, h1]
  | ok s₀ =>
    have hgd : anyGlob matcher ignore d = true := List.any_eq_true.mpr ⟨g, hg, hm⟩
    have hstep : dfStep matcher ignore dir pfx s₀ (d, true) =
        .ok ⟨s₀.ignoredDirectories ++ [d], s₀.files⟩ := by
      simp [dfStep, hgd]
    have hfull : dfRun matcher ignore dir pfx ((d, true) :: (lsub ++ l₂)) s₀ =
        dfRun matcher ignore dir pfx (lsub ++ l₂)
          ⟨s₀.ignoredDirectories ++ [d], s₀.files⟩ := by
      rw [dfRun_cons, hstep]
    have hpruned : dfRun matcher ignore dir pfx ((d, true) :: l₂) s₀ =
        dfRun matcher ignore dir pfx l₂
          ⟨s₀.ignoredDirectories ++ [d], s₀.files⟩ := by
      rw [dfRun_cons, hstep]
    obtain ⟨ex, hrun, hex⟩ := dfRun_subtree matcher ignore dir pfx d lsub
      ⟨s₀.ignoredDirectories ++ [d], s₀.files⟩ (by simp) hsub
    have hfull2 : dfRun matcher ignore dir pfx (lsub ++ l₂)
        ⟨s₀.ignoredDirectories ++ [d], s₀.files⟩ =
        dfRun matcher ignore dir pfx l₂
          ⟨(s₀.ignoredDirectories ++ [d]) ++ ex, s₀.files⟩ := by
      rw [dfRun_append, hrun]
    have hrel : IgnRel d ⟨(s₀.ignoredDirectories ++ [d]) ++ ex, s₀.files⟩
        ⟨s₀.ignoredDirectories ++ [d], s₀.files⟩ := by
      refine ⟨rfl, by simp, ?_, ?_⟩
      · intro x hx
        exact List.mem_append.mpr (Or.inl hx)
      · intro x hx
        rcases List.mem_append.mp hx with h' | h'
        · exact Or.inl h'
        · exact Or.inr (hex x h')
    rw [dfRun_append, dfRun_append, h1]
    show (match dfRun matcher ignore dir pfx ((d, true) :: (lsub ++ l₂)) s₀ with
        | Except.error e => (Except.error e : Except GoErr (List GoStr))
        | Except.ok s => Except.ok s.files) =
      (match dfRun matcher ignore dir pfx ((d, true) :: l₂) s₀ with
        | Except.error e => Except.error e
        | Except.ok s => Except.ok s.files)
    rw [hfull, hfull2, hpruned]
    rcases @dfRun_rel matcher ignore dir pfx d l₂
        ⟨(s₀.ignoredDirectories ++ [d]) ++ ex, s₀.files⟩
        ⟨s₀.ignoredDirectories ++ [d], s₀.files⟩ hrel with
      ⟨err, he1, he2⟩ | ⟨t₁, t₂, ht1, ht2, hfr⟩
    · rw [he1, he2]
    · rw [ht1, ht2]
      show (Except.ok t₁.files : Except GoErr (List GoStr)) = Except.ok t₂.files
      rw [hfr.1]

/-- Witness for C6: a concrete walk of a tree rooted at `/r` where the
subdirectory `/r/sub` matches an ignore glob; the file `/r/sub/f` beneath it
is excluded although it matches no glob. -/
theorem dirFiles_ignored_dir_transitive_witness :
    toGoStr "/r/sub" ∈ [toGoStr "/r/sub"] ∧
      ((fun g s => g == s) (toGoStr "/r/sub") (toGoStr "/r/sub")) = true ∧
      DirFiles (fun g s => g == s) [toGoStr "/r/sub"] (toGoStr "/r") (toGoStr "p")
          ([] ++ (toGoStr "/r/sub", true) ::
            ([(toGoStr "/r/sub/f", false)] ++ [(toGoStr "/r/a", false)])) =
        DirFiles (fun g s => g == s) [toGoStr "/r/sub"] (toGoStr "/r") (toGoStr "p")
          ([] ++ (toGoStr "/r/sub", true) :: [(toGoStr "/r/a", false)]) :=
  ⟨by decide, by decide,
    dirFiles_ignored_dir_transitive (fun g s => g == s) [toGoStr "/r/sub"]
      (toGoStr "/r") (toGoStr "p") (toGoStr "/r/sub") (toGoStr "/r/sub")
      [] [(toGoStr "/r/sub/f", false)] [(toGoStr "/r/a", false)]
      (by decide) (by decide)
      (fun p b hb => by
        rw [List.mem_singleton, Prod.mk.injEq] at hb
        obtain ⟨rfl, -⟩ := hb
        exact ⟨by decide, by decide⟩)⟩


/-- The summary depends on the opener only through its values on the listed
files. -/
theorem summary_congr (prims : HashPrims)
    (o₁ o₂ : GoStr → Except GoErr (List UInt8)) :
    ∀ l : List GoStr, (∀ f ∈ l, o₁ f = o₂ f) →
      summary prims o₁ l = summary prims o₂ l := by
  intro l
  induction l with
  | nil => intro _; rfl
  | cons f rest ih =>
    intro h
    have hf : o₁ f = o₂ f := h f (List.mem_cons_self _ _)
    have hrest : ∀ x ∈ rest, o₁ x = o₂ x :=
      fun x hx => h x (List.mem_cons_of_mem _ hx)
    simp only [summary, hf, ih hrest]

/-- The digest depends only on the multiset of names and the opener's values
on them. -/
theorem hash1_congr (prims : HashPrims) {l₁ l₂ : List GoStr}
    (o₁ o₂ : GoStr → Except GoErr (List UInt8)) (hperm : l₁.Perm l₂)
    (ho : ∀ f ∈ l₁, o₁ f = o₂ f) :
    Hash1 prims l₁ o₁ = Hash1 prims l₂ o₂ := by
  unfold Hash1 hash1Sorted
  rw [List.nil_append, List.nil_append, ← sortStrings_eq_of_perm hperm]
  rw [summary_congr prims o₁ o₂ (sortStrings l₁)
    (fun f hf => ho f ((List.mergeSort_perm l₁ strLe).subset hf))]

/-- The archive map lookup depends only on entry names and contents. -/
theorem zipLookup_data : ∀ (zs₁ zs₂ : List ZipEntry),
    zs₁.map zipData = zs₂.map zipData →
    ∀ (acc₁ acc₂ : Option ZipEntry) (n : GoStr),
      acc₁.map zipData = acc₂.map zipData →
      (zs₁.foldl (fun acc e => if e.name == n then some e else acc) acc₁).map zipData =
        (zs₂.foldl (fun acc e => if e.name == n then some e else acc) acc₂).map zipData := by
  intro zs₁
  induction zs₁ with
  | nil =>
    intro zs₂ h acc₁ acc₂ n hacc
    cases zs₂ with
    | nil => simpa using hacc
    | cons b bs => simp [zipData] at h
  | cons a as ih =>
    intro zs₂ h acc₁ acc₂ n hacc
    cases zs₂ with
    | nil => simp [zipData] at h
    | cons b bs =>
      simp only [List.map_cons, List.cons.injEq] at h
      obtain ⟨hab, hrest⟩ := h
      have hname : a.name = b.name := congrArg Prod.fst hab
      simp only [List.foldl_cons]
      apply ih bs hrest
      rw [hname]
      by_cases hn : (b.name == n) = true
      · rw [if_pos hn, if_pos hn]
        exact congrArg some hab
      · rw [if_neg hn, if_neg hn]
        exact hacc

/-- The archive opener depends only on entry names and contents. -/
theorem zipOpen_data {zs₁ zs₂ : List ZipEntry}
    (h : zs₁.map zipData = zs₂.map zipData) (n : GoStr) :
    zipOpen zs₁ n = zipOpen zs₂ n := by
  have hl : (zipLookup zs₁ n).map zipData = (zipLookup zs₂ n).map zipData :=
    zipLookup_data zs₁ zs₂ h none none n rfl
  unfold zipOpen
  cases h1 : zipLookup zs₁ n with
  | none =>
    cases h2 : zipLookup zs₂ n with
    | none => rfl
    | some f =>
      rw [h1, h2] at hl
      exact absurd hl (by simp)
  | some f =>
    cases h2 : zipLookup zs₂ n with
    | none =>
      rw [h1, h2] at hl
      exact absurd hl (by simp)
    | some f' =>
      rw [h1, h2] at hl
      have hfd : zipData f = zipData f' := by simpa using hl
      have hc : f.contents = f'.contents := congrArg Prod.snd hfd
      show (Except.ok f.contents : Except GoErr (List UInt8)) = .ok f'.contents
      rw [hc]

/-- C7: for every directory tree walk and every zip archive whose entry names
equal (as a multiset) the tree's logical prefix-rooted slash-separated paths
and whose entry contents equal those files' byte contents, `HashDir` over the
tree equals `HashZip` over the archive; and compression method, timestamps
and other archive metadata do not affect the digest. -/
theorem hashDir_eq_hashZip :
    (∀ (prims : HashPrims) (matcher : GoStr → GoStr → Bool) (ignore : List GoStr)
        (dir pfx : GoStr) (entries : List (GoStr × Bool))
        (readFile : GoStr → Except GoErr (List UInt8)) (zs : List ZipEntry)
        (files : List GoStr),
      DirFiles matcher ignore dir pfx entries = .ok files →
      files.Perm (zs.map (·.name)) →
      (∀ n ∈ files, osOpen dir pfx readFile n = zipOpen zs n) →
      HashDir prims matcher ignore dir pfx entries readFile = HashZip prims zs) ∧
    (∀ (prims : HashPrims) (zs₁ zs₂ : List ZipEntry),
      zs₁.map zipData = zs₂.map zipData →
      HashZip prims zs₁ = HashZip prims zs₂) := by
  constructor
  · intro prims matcher ignore dir pfx entries readFile zs files hdf hperm ho
    unfold HashDir HashZip
    rw [hdf]
    exact hash1_congr prims (osOpen dir pfx readFile) (zipOpen zs) hperm ho
  · intro prims zs₁ zs₂ h
    unfold HashZip
    have hnames : zs₁.map (·.name) = zs₂.map (·.name) := by
      have := congrArg (List.map Prod.fst) h
      simpa [zipData, Function.comp] using this
    rw [hnames]
    exact hash1_congr prims (zipOpen zs₁) (zipOpen zs₂) (List.Perm.refl _)
      (fun n _ => zipOpen_data h n)

/-- Witness for C7: a walk of `/r` containing the single file `/r/a` with
logical name `p/a`, and archives holding `p/a` with the same contents but
different compression method and timestamps. -/
theorem hashDir_eq_hashZip_witness :
    DirFiles (fun _ _ => false) [] (toGoStr "/r") (toGoStr "p")
        [(toGoStr "/r", true), (toGoStr "/r/a", false)] = .ok [toGoStr "p/a"] ∧
      HashDir trivPrims (fun _ _ => false) [] (toGoStr "/r") (toGoStr "p")
          [(toGoStr "/r", true), (toGoStr "/r/a", false)] (fun _ => .ok [1, 2]) =
        HashZip trivPrims [⟨toGoStr "p/a", [1, 2], 8, 99⟩] ∧
      HashZip trivPrims [⟨toGoStr "p/a", [1, 2], 8, 99⟩] =
        HashZip trivPrims [⟨toGoStr "p/a", [1, 2], 0, 0⟩] :=
  ⟨by rfl,
    hashDir_eq_hashZip.1 trivPrims (fun _ _ => false) [] (toGoStr "/r")
      (toGoStr "p") [(toGoStr "/r", true), (toGoStr "/r/a", false)]
      (fun _ => .ok [1, 2]) [⟨toGoStr "p/a", [1, 2], 8, 99⟩] [toGoStr "p/a"]
      (by rfl) (by decide)
      (fun n hn => by
        rcases List.mem_singleton.mp hn with rfl
        rfl),
    hashDir_eq_hashZip.2 trivPrims [⟨toGoStr "p/a", [1, 2], 8, 99⟩]
      [⟨toGoStr "p/a", [1, 2], 0, 0⟩] (by decide)⟩

/-- C10: `Hash1` never mutates its caller's slice: the sort is applied to a
freshly allocated copy, so after the call the caller's reference still holds
the original list, while the digest is that of `Hash1` on the original
contents. -/
theorem hash1_no_mutation (prims : HashPrims) (h : SliceHeap) (r : Nat)
    (openF : GoStr → Except GoErr (List UInt8)) (hr : r < h.next) :
    (Hash1Heap prims h r openF).2.store r = h.store r ∧
      (Hash1Heap prims h r openF).1 = Hash1 prims (h.store r) openF := by
  have hne : r ≠ h.next := Nat.ne_of_lt hr
  constructor
  · show hWrite (hWrite h.store h.next (List.nil ++ h.store r)) h.next
        (sortStrings (hWrite h.store h.next (List.nil ++ h.store r) h.next)) r =
      h.store r
    simp [hWrite, hne]
  · show hash1Sorted prims openF
        (hWrite (hWrite h.store h.next (List.nil ++ h.store r)) h.next
          (sortStrings (hWrite h.store h.next (List.nil ++ h.store r) h.next))
          h.next) =
      Hash1 prims (h.store r) openF
    simp [hWrite, Hash1]

/-- Witness for C10 on a concrete two-element heap cell. -/
theorem hash1_no_mutation_witness :
    (0 < (1 : Nat)) ∧
      (Hash1Heap trivPrims ⟨fun _ => [['b'], ['a']], 1⟩ 0 (fun _ => .ok [])).2.store 0 =
        [['b'], ['a']] ∧
      (Hash1Heap trivPrims ⟨fun _ => [['b'], ['a']], 1⟩ 0 (fun _ => .ok [])).1 =
        Hash1 trivPrims [['b'], ['a']] (fun _ => .ok []) :=
  ⟨by decide,
    (hash1_no_mutation trivPrims ⟨fun _ => [['b'], ['a']], 1⟩ 0
      (fun _ => .ok []) (by decide)).1,
    (hash1_no_mutation trivPrims ⟨fun _ => [['b'], ['a']], 1⟩ 0
      (fun _ => .ok []) (by decide)).2⟩


open clients resources

/-- A `some` result of the bounded exit search is the first loop-ending poll. -/
theorem searchExit_spec_some (q : Nat → Except GoErr GStatus) :
    ∀ (fuel i0 i : Nat), searchExit q i0 fuel = some i →
      pollExit q i = true ∧ i0 ≤ i ∧ i < i0 + fuel ∧
        ∀ j, i0 ≤ j → j < i → pollExit q j = false := by
  intro fuel
  induction fuel with
  | zero =>
    intro i0 i h
    simp [searchExit] at h
  | succ fuel ih =>
    intro i0 i h
    by_cases hp : pollExit q i0 = true
    · unfold searchExit at h
      rw [if_pos hp] at h
      obtain rfl := Option.some.inj h
      exact ⟨hp, Nat.le_refl _, by omega,
        fun j hj hji => absurd hji (Nat.not_lt.mpr hj)⟩
    · unfold searchExit at h
      rw [if_neg hp] at h
      obtain ⟨hex, hle, hlt, hmin⟩ := ih (i0 + 1) i h
      refine ⟨hex, by omega, by omega, ?_⟩
      intro j hj hji
      rcases Nat.eq_or_lt_of_le hj with heq | hlt'
      · subst heq
        simpa using hp
      · exact hmin j hlt' hji

/-- A `none` result of the bounded exit search means no poll below the
horizon ends the loop. -/
theorem searchExit_spec_none (q : Nat → Except GoErr GStatus) :
    ∀ (fuel i0 : Nat), searchExit q i0 fuel = none →
      ∀ j, i0 ≤ j → j < i0 + fuel → pollExit q j = false := by
  intro fuel
  induction fuel with
  | zero =>
    intro i0 _ j hj hlt
    exact absurd hlt (by omega)
  | succ fuel ih =>
    intro i0 h j hj hlt
    by_cases hp : pollExit q i0 = true
    · unfold searchExit at h
      rw [if_pos hp] at h
      exact Option.noConfusion h
    · rcases Nat.eq_or_lt_of_le hj with heq | hlt'
      · subst heq
        simpa using hp
      · unfold searchExit at h
        rw [if_neg hp] at h
        exact ih (i0 + 1) h j hlt' (by omega)

/-- With a timeout of zero the timer fires immediately and `Execute` always
returns the timeout error with pid 0 after issuing a stop. -/
theorem execute_zero_timeout (config : CommandConfig) (beh : ProcBehavior) :
    Execute 0 config beh = ⟨0, some ErrorCommandTimeout, true⟩ := by
  rcases hst : beh.start with e | ⟨pid, pf⟩
  · simp [Execute, hst]
  · by_cases hbg : config.RunInBackground <;>
      simp [Execute, hst, hbg, searchExit]

/-- `Execute` returns the timeout error having issued a stop exactly when no
done-channel send occurs strictly before the timer fires. -/
theorem execute_timeout_iff (timeout : Nat) (config : CommandConfig)
    (beh : ProcBehavior) :
    ((Execute timeout config beh).err = some ErrorCommandTimeout ∧
      (Execute timeout config beh).stopIssued = true) ↔
    ¬ DoneBeforeTimeout timeout config beh := by
  rcases hst : beh.start with e | ⟨pid, pf⟩
  · by_cases hlt : beh.startTime < timeout
    · have hres : Execute timeout config beh = ⟨0, some e, false⟩ := by
        simp [Execute, hst, hlt]
      rw [hres]
      constructor
      · rintro ⟨-, hstop⟩
        exact absurd hstop (by simp)
      · intro hnd
        exact (hnd (Or.inl ⟨e, hst, hlt⟩)).elim
    · have hres : Execute timeout config beh =
          ⟨0, some ErrorCommandTimeout, true⟩ := by
        simp [Execute, hst, hlt]
      rw [hres]
      constructor
      · rintro ⟨-, -⟩
        rintro (⟨e', -, hlt'⟩ | ⟨p, f, hpq, -, -⟩ | ⟨p, f, i, hpq, -, -, -, -⟩)
        · exact hlt hlt'
        · rw [hst] at hpq; exact Except.noConfusion hpq
        · rw [hst] at hpq; exact Except.noConfusion hpq
      · intro _
        exact ⟨rfl, rfl⟩
  · by_cases hbg : config.RunInBackground = true
    · by_cases hlt : beh.startTime < timeout
      · have hres : Execute timeout config beh = ⟨pid, none, false⟩ := by
          simp [Execute, hst, hbg, hlt]
        rw [hres]
        constructor
        · rintro ⟨herr, -⟩
          exact absurd herr (by simp)
        · intro hnd
          exact (hnd (Or.inr (Or.inl ⟨pid, pf, hst, hbg, hlt⟩))).elim
      · have hres : Execute timeout config beh =
            ⟨0, some ErrorCommandTimeout, true⟩ := by
          simp [Execute, hst, hbg, hlt]
        rw [hres]
        constructor
        · rintro ⟨-, -⟩
          rintro (⟨e', he', -⟩ | ⟨p, f, -, -, hlt'⟩ | ⟨p, f, i, -, hbg', -, -, -⟩)
          · rw [hst] at he'; exact Except.noConfusion he'
          · exact hlt hlt'
          · rw [hbg] at hbg'; exact Bool.noConfusion hbg'
        · intro _
          exact ⟨rfl, rfl⟩
    · have hbg' : config.RunInBackground = false := by simpa using hbg
      cases hse : searchExit beh.query 0 timeout with
      | some i =>
        obtain ⟨hex, -, hiT, hmin⟩ :=
          searchExit_spec_some beh.query timeout 0 i hse
        by_cases hlt : beh.startTime + 200 * i < timeout
        · have hres : Execute timeout config beh =
              ⟨pid, pollErr beh.query i, false⟩ := by
            simp [Execute, hst, hbg', hse, hlt]
          rw [hres]
          constructor
          · rintro ⟨-, hstop⟩
            exact absurd hstop (by simp)
          · intro hnd
            exact (hnd (Or.inr (Or.inr ⟨pid, pf, i, hst, hbg', hex,
              fun j hj => hmin j (Nat.zero_le j) hj, hlt⟩))).elim
        · have hres : Execute timeout config beh =
              ⟨if beh.startTime < timeout then pid else 0,
                some ErrorCommandTimeout, true⟩ := by
            simp [Execute, hst, hbg', hse, hlt]
          rw [hres]
          constructor
          · rintro ⟨-, -⟩
            rintro (⟨e', he', -⟩ | ⟨p, f, -, hbg2, -⟩ |
              ⟨p, f, i', -, -, hex', hmin', hlt'⟩)
            · rw [hst] at he'; exact Except.noConfusion he'
            · rw [hbg'] at hbg2; exact Bool.noConfusion hbg2
            · have h1 : ¬ i' < i := by
                intro hc
                have hpe := hmin i' (Nat.zero_le i') hc
                rw [hex'] at hpe
                exact Bool.noConfusion hpe
              have h2 : ¬ i < i' := by
                intro hc
                have hpe := hmin' i hc
                rw [hex] at hpe
                exact Bool.noConfusion hpe
              have hii : i' = i := Nat.le_antisymm (Nat.not_lt.mp h2) (Nat.not_lt.mp h1)
              rw [hii] at hlt'
              exact hlt hlt'
          · intro _
            exact ⟨rfl, rfl⟩
      | none =>
        have hall : ∀ j, j < timeout → pollExit beh.query j = false := by
          intro j hj
          exact searchExit_spec_none beh.query timeout 0 hse j (Nat.zero_le j)
            (by omega)
        have hres : Execute timeout config beh =
            ⟨if beh.startTime < timeout then pid else 0,
              some ErrorCommandTimeout, true⟩ := by
          simp [Execute, hst, hbg', hse]
        rw [hres]
        constructor
        · rintro ⟨-, -⟩
          rintro (⟨e', he', -⟩ | ⟨p, f, -, hbg2, -⟩ |
            ⟨p, f, i', -, -, hex', -, hlt'⟩)
          · rw [hst] at he'; exact Except.noConfusion he'
          · rw [hbg'] at hbg2; exact Bool.noConfusion hbg2
          · have hi'T : ¬ i' < timeout := by
              intro hc
              have hpe := hall i' hc
              rw [hex'] at hpe
              exact Bool.noConfusion hpe
            omega
        · intro _
          exact ⟨rfl, rfl⟩

/-- C3 (amended): `Execute` returns the distinguished timeout error together
with the last known pid, having issued a stop against the pidfile, if and
only if the done-channel send (start failure; in background, start
completion; in foreground, the first poll observing the stopped status or a
query error) does not occur strictly before the timeout expires — regardless
of foreground or background mode.  A timeout of zero is not "no timeout":
`time.After(0)` fires immediately, so `Execute` then always returns the
timeout error. -/
theorem execute_timeout_characterization (timeout : Nat)
    (config : CommandConfig) (beh : ProcBehavior) :
    (((Execute timeout config beh).err = some ErrorCommandTimeout ∧
        (Execute timeout config beh).stopIssued = true) ↔
      ¬ DoneBeforeTimeout timeout config beh) ∧
    (timeout = 0 →
      Execute timeout config beh = ⟨0, some ErrorCommandTimeout, true⟩) :=
  ⟨execute_timeout_iff timeout config beh,
    fun h0 => by rw [h0]; exact execute_zero_timeout config beh⟩

/-- Witness for C3 at a concrete zero-timeout foreground execution. -/
theorem execute_timeout_characterization_witness :
    Execute 0 ⟨"sleep", ["10"], none, "", false, "log"⟩
        ⟨.ok (5, "5.pid"), 1, fun _ => .ok .stopped⟩ =
      ⟨0, some ErrorCommandTimeout, true⟩ :=
  (execute_timeout_characterization 0 ⟨"sleep", ["10"], none, "", false, "log"⟩
    ⟨.ok (5, "5.pid"), 1, fun _ => .ok .stopped⟩).2 rfl

/-- C3 (counterexample): with timeout zero the timeout error IS returned —
here for a foreground process that would have stopped at its very first
poll — refuting "with a timeout of zero, the timeout error is never
returned". -/
theorem execute_timeout_zero_counterexample :
    Execute 0 ⟨"run.sh", [], none, "", false, "log"⟩
        ⟨.ok (7, "7.pid"), 1, fun _ => .ok .stopped⟩ =
      ⟨0, some ErrorCommandTimeout, true⟩ ∧
      pollExit (fun _ => .ok .stopped) 0 = true :=
  ⟨rfl, rfl⟩

/-- C4 (amended): with `RunInBackground` set, `Execute` performs no status
polling — its result is independent of the poll behaviour, hence of how long
the command subsequently runs — and, provided the start completes strictly
before the timeout fires, it returns at start time carrying the pid reported
by the start with no error.  The timeout still races the start itself, so
without that proviso the timeout error can be returned even in background
mode. -/
theorem execute_background (timeout : Nat) (config : CommandConfig)
    (beh : ProcBehavior) (pid : Int) (pf : String)
    (hbg : config.RunInBackground = true) :
    (beh.start = .ok (pid, pf) → beh.startTime < timeout →
      Execute timeout config beh = ⟨pid, none, false⟩) ∧
    (∀ q, Execute timeout config { beh with query := q } =
      Execute timeout config beh) := by
  constructor
  · intro hst hlt
    simp [Execute, hst, hbg, hlt]
  · intro q
    rcases hst : beh.start with e | ⟨p, f⟩ <;>
      simp [Execute, hst, hbg]

/-- Witness for C4 at a concrete background execution started before the
timeout, with an arbitrary (even failing) poll behaviour left unread. -/
theorem execute_background_witness :
    (⟨"svc", [], none, "", true, "log"⟩ : CommandConfig).RunInBackground = true ∧
      Execute 5 ⟨"svc", [], none, "", true, "log"⟩
          ⟨.ok (9, "9.pid"), 1, fun _ => .ok .running⟩ = ⟨9, none, false⟩ ∧
      Execute 5 ⟨"svc", [], none, "", true, "log"⟩
          { (⟨.ok (9, "9.pid"), 1, fun _ => .ok .running⟩ : ProcBehavior) with
            query := fun _ => .error "poll failed" } =
        Execute 5 ⟨"svc", [], none, "", true, "log"⟩
          ⟨.ok (9, "9.pid"), 1, fun _ => .ok .running⟩ :=
  ⟨rfl,
    (execute_background 5 ⟨"svc", [], none, "", true, "log"⟩
      ⟨.ok (9, "9.pid"), 1, fun _ => .ok .running⟩ 9 "9.pid" rfl).1 rfl
      (by decide),
    (execute_background 5 ⟨"svc", [], none, "", true, "log"⟩
      ⟨.ok (9, "9.pid"), 1, fun _ => .ok .running⟩ 9 "9.pid" rfl).2
      (fun _ => .error "poll failed")⟩

/-- C4 (counterexample): a background execution whose start completes at time
1 under a zero timeout returns the timeout error and pid 0, not the started
pid — refuting the unconditional "returns as soon as the process has started,
carrying its non-zero pid ... the timeout does not apply". -/
theorem execute_background_zero_counterexample :
    (⟨"svc", [], none, "", true, "log"⟩ : CommandConfig).RunInBackground = true ∧
      Execute 0 ⟨"svc", [], none, "", true, "log"⟩
          ⟨.ok (9, "9.pid"), 1, fun _ => .ok .running⟩ =
        ⟨0, some ErrorCommandTimeout, true⟩ :=
  ⟨rfl, rfl⟩

/-- C1 (code defect, `command.go:54-59`): with a non-nil `Env` list the
command is launched with the ambient environment extended by `config.Args`,
not by the configured `Env` entries — the guard tests `config.Env != nil` but
the append passes `config.Args...` — so at this input the launched
environment is `["PATH=/bin", "a1"]` where the specified merge would give
`["PATH=/bin", "FOO=1"]`. -/
theorem buildEnv_appends_args_not_env :
    buildEnv ["PATH=/bin"] ⟨"run.sh", ["a1"], some ["FOO=1"], "", false, "log"⟩ =
      ["PATH=/bin", "a1"] ∧
      buildEnv ["PATH=/bin"] ⟨"run.sh", ["a1"], some ["FOO=1"], "", false, "log"⟩ ≠
        envPerSpec ["PATH=/bin"]
          ⟨"run.sh", ["a1"], some ["FOO=1"], "", false, "log"⟩ :=
  ⟨rfl, by decide⟩

/-- C2 (amended): the exec provider's `Changed` reports `(false, nil)`
unconditionally; it does not consult the state store, so the absence of a
prior record does not make it report true. -/
theorem exec_changed_always_false (p : ExecProvider) :
    ExecProvider.Changed p = (false, none) := rfl

/-- C2 (counterexample): on a freshly initialized state store `FindResource`
reports not-found for the resource's id, yet `Changed` on its provider still
reports false — refuting "Changed() returns true whenever the State Store
holds no prior record". -/
theorem exec_changed_fresh_state_counterexample :
    FindResource ⟨[]⟩ "resource.exec.test" = none ∧
      (ExecProvider.Changed ⟨⟨⟨"resource.exec.test", "test", "./"⟩, "", false,
        none, none, [], [], 0⟩⟩).1 = false :=
  ⟨rfl, rfl⟩

/-- C8 (amended): `Destroy` on an exec resource always returns success; when
the resource is a daemonized local exec (no image, no target), a recorded pid
below 1 yields success with the no-pid warning, and a failing `Kill` on a
recorded pid yields success with the cleanup warning.  For other exec
resources `Destroy` returns success without consulting the pid or warning. -/
theorem exec_destroy_lenient (p : ExecProvider) (kill : Int → Option GoErr) :
    (ExecProvider.Destroy p kill).1 = none ∧
      (p.config.Daemon = true → p.config.Image = none → p.config.Target = none →
        (p.config.PID < 1 →
          ExecProvider.Destroy p kill =
            (none, ["unable to stop local process, no pid"])) ∧
        (1 ≤ p.config.PID → (kill p.config.PID).isSome = true →
          ExecProvider.Destroy p kill =
            (none, ["error cleaning up daemonized process"]))) := by
  constructor
  · by_cases hc : p.config.Daemon = true ∧ p.config.Image = none ∧
        p.config.Target = none
    · by_cases hpid : p.config.PID < 1
      · simp [ExecProvider.Destroy, hc, hpid]
      · cases hk : kill p.config.PID with
        | some e => simp [ExecProvider.Destroy, hc, hpid, hk]
        | none => simp [ExecProvider.Destroy, hc, hpid, hk]
    · simp [ExecProvider.Destroy, hc]
  · intro hd hi ht
    constructor
    · intro hpid
      simp [ExecProvider.Destroy, hd, hi, ht, hpid]
    · intro hpid hk
      have hnlt : ¬ p.config.PID < 1 := by omega
      cases hks : kill p.config.PID with
      | none => rw [hks] at hk; exact absurd hk (by simp)
      | some e => simp [ExecProvider.Destroy, hd, hi, ht, hnlt, hks]

/-- Witness for C8: a daemonized local exec with pid 0 warns and succeeds; a
daemonized local exec whose `Kill` fails warns and succeeds. -/
theorem exec_destroy_lenient_witness :
    ExecProvider.Destroy ⟨⟨⟨"e1", "e1", "/f"⟩, "", true, none, none, [], [], 0⟩⟩
        (fun _ => none) = (none, ["unable to stop local process, no pid"]) ∧
      ExecProvider.Destroy ⟨⟨⟨"e2", "e2", "/f"⟩, "", true, none, none, [], [], 7⟩⟩
        (fun _ => some "no such process") =
        (none, ["error cleaning up daemonized process"]) :=
  ⟨((exec_destroy_lenient ⟨⟨⟨"e1", "e1", "/f"⟩, "", true, none, none, [], [], 0⟩⟩
      (fun _ => none)).2 rfl rfl rfl).1 (by decide),
    ((exec_destroy_lenient ⟨⟨⟨"e2", "e2", "/f"⟩, "", true, none, none, [], [], 7⟩⟩
      (fun _ => some "no such process")).2 rfl rfl rfl).2 (by decide) rfl⟩

/-- C8 (counterexample): a non-daemonized exec with recorded pid 0 — Destroy
returns success but emits no warning, refuting "returns success (nil error)
while emitting a warning" for every exec resource whose pid is zero or
negative. -/
theorem exec_destroy_no_warning_counterexample :
    ExecProvider.Destroy ⟨⟨⟨"e3", "e3", "/f"⟩, "", false, none, none, [], [], 0⟩⟩
        (fun _ => none) = (none, []) ∧
      (⟨⟨⟨"e3", "e3", "/f"⟩, "", false, none, none, [], [], 0⟩⟩ :
        ExecProvider).config.PID < 1 :=
  ⟨rfl, by decide⟩


/-- C9 (amended): for every resource whose id has a matching-typed record in
the loaded state, the pre-dispatch `Process()` hook copies the previously
computed outputs from the stored record into the in-memory resource — the
generated `Value` for a `random_uuid`, the `PID` for an `exec`, the
`JobChecksums` for a `nomad_job` — and when no record exists those fields are
left unchanged; in both cases the hook returns nil, except that an exec
combining a purely local target with volumes or networks fails the hook's
mutual-exclusion validation (so "Process() still succeeds" requires the
configuration to pass that validation). -/
theorem process_rehydrates_outputs :
    (∀ (cfg : ConfigState) (u st : RandomUUID),
      FindResource cfg u.meta.ID = some (.uuid st) →
      RandomUUID.Process (.ok cfg) u = some ({ u with Value := st.Value }, none)) ∧
    (∀ (cfg : ConfigState) (u : RandomUUID),
      FindResource cfg u.meta.ID = none →
      RandomUUID.Process (.ok cfg) u = some (u, none)) ∧
    (∀ (cfg : ConfigState) (n st : NomadJob),
      FindResource cfg n.meta.ID = some (.nomad st) →
      NomadJob.Process (.ok cfg) n =
        some ({ n with
          Paths := n.Paths.map (fun p => ensureAbsolute p n.meta.File),
          JobChecksums := st.JobChecksums }, none)) ∧
    (∀ (cfg : ConfigState) (n : NomadJob),
      FindResource cfg n.meta.ID = none →
      NomadJob.Process (.ok cfg) n =
        some ({ n with
          Paths := n.Paths.map (fun p => ensureAbsolute p n.meta.File) }, none)) ∧
    (∀ (cfg : ConfigState) (c st : Exec),
      ¬ (c.Image = none ∧ c.Target = none ∧
          (c.Volumes ≠ [] ∨ c.Networks ≠ [])) →
      FindResource cfg c.meta.ID = some (.exec st) →
      Exec.Process (.ok cfg) c =
        some ({ c with
          Volumes := c.Volumes.map (fun v =>
            { v with Source := ensureAbsolute v.Source c.meta.File }),
          PID := st.PID }, none)) ∧
    (∀ (cfg : ConfigState) (c : Exec),
      ¬ (c.Image = none ∧ c.Target = none ∧
          (c.Volumes ≠ [] ∨ c.Networks ≠ [])) →
      FindResource cfg c.meta.ID = none →
      Exec.Process (.ok cfg) c =
        some ({ c with
          Volumes := c.Volumes.map (fun v =>
            { v with Source := ensureAbsolute v.Source c.meta.File }) }, none)) := by
  refine ⟨?_, ?_, ?_, ?_, ?_, ?_⟩
  · intro cfg u st hf
    simp [RandomUUID.Process, hf]
  · intro cfg u hf
    simp [RandomUUID.Process, hf]
  · intro cfg n st hf
    simp [NomadJob.Process, hf]
  · intro cfg n hf
    simp [NomadJob.Process, hf]
  · intro cfg c st hval hf
    simp [Exec.Process, hf]
    intro h1 h2
    constructor
    · by_contra hv
      exact hval ⟨h1, h2, Or.inl hv⟩
    · by_contra hn
      exact hval ⟨h1, h2, Or.inr hn⟩
  · intro cfg c hval hf
    simp [Exec.Process, hf]
    intro h1 h2
    constructor
    · by_contra hv
      exact hval ⟨h1, h2, Or.inl hv⟩
    · by_contra hn
      exact hval ⟨h1, h2, Or.inr hn⟩

/-- Witness for C9, mirroring the repository test
`TestExecSetsOutputsFromState`: a state holding an exec record with pid 42, a
uuid record, and a nomad record; `Process` on same-id resources copies the
recorded `PID`, `Value` and `JobChecksums`, and on a fresh empty state leaves
the uuid's `Value` unchanged. -/
theorem process_rehydrates_outputs_witness :
    FindResource
        ⟨[.exec ⟨⟨"resource.exec.test", "test", ""⟩, "", false, none, none,
            [], [], 42⟩,
          .uuid ⟨⟨"resource.random_uuid.u", "u", ""⟩, "abc-123"⟩,
          .nomad ⟨⟨"resource.nomad_job.j", "j", "/x"⟩, "dc", ["/j.nomad"],
            ["c1"]⟩]⟩
        "resource.exec.test" =
      some (.exec ⟨⟨"resource.exec.test", "test", ""⟩, "", false, none, none,
        [], [], 42⟩) ∧
    Exec.Process
        (.ok ⟨[.exec ⟨⟨"resource.exec.test", "test", ""⟩, "", false, none, none,
            [], [], 42⟩,
          .uuid ⟨⟨"resource.random_uuid.u", "u", ""⟩, "abc-123"⟩,
          .nomad ⟨⟨"resource.nomad_job.j", "j", "/x"⟩, "dc", ["/j.nomad"],
            ["c1"]⟩]⟩)
        ⟨⟨"resource.exec.test", "test", ""⟩, "", false, none, none, [], [], 0⟩ =
      some (⟨⟨"resource.exec.test", "test", ""⟩, "", false, none, none, [], [],
        42⟩, none) ∧
    RandomUUID.Process
        (.ok ⟨[.exec ⟨⟨"resource.exec.test", "test", ""⟩, "", false, none, none,
            [], [], 42⟩,
          .uuid ⟨⟨"resource.random_uuid.u", "u", ""⟩, "abc-123"⟩,
          .nomad ⟨⟨"resource.nomad_job.j", "j", "/x"⟩, "dc", ["/j.nomad"],
            ["c1"]⟩]⟩)
        ⟨⟨"resource.random_uuid.u", "u", ""⟩, ""⟩ =
      some (⟨⟨"resource.random_uuid.u", "u", ""⟩, "abc-123"⟩, none) ∧
    NomadJob.Process
        (.ok ⟨[.exec ⟨⟨"resource.exec.test", "test", ""⟩, "", false, none, none,
            [], [], 42⟩,
          .uuid ⟨⟨"resource.random_uuid.u", "u", ""⟩, "abc-123"⟩,
          .nomad ⟨⟨"resource.nomad_job.j", "j", "/x"⟩, "dc", ["/j.nomad"],
            ["c1"]⟩]⟩)
        ⟨⟨"resource.nomad_job.j", "j", "/x"⟩, "dc", ["/j.nomad"], []⟩ =
      some (⟨⟨"resource.nomad_job.j", "j", "/x"⟩, "dc", ["/j.nomad"], ["c1"]⟩,
        none) ∧
    RandomUUID.Process (.ok ⟨[]⟩) ⟨⟨"resource.random_uuid.u", "u", ""⟩, "v0"⟩ =
      some (⟨⟨"resource.random_uuid.u", "u", ""⟩, "v0"⟩, none) :=
  ⟨by decide,
    process_rehydrates_outputs.2.2.2.2.1
      ⟨[.exec ⟨⟨"resource.exec.test", "test", ""⟩, "", false, none, none,
          [], [], 42⟩,
        .uuid ⟨⟨"resource.random_uuid.u", "u", ""⟩, "abc-123"⟩,
        .nomad ⟨⟨"resource.nomad_job.j", "j", "/x"⟩, "dc", ["/j.nomad"],
          ["c1"]⟩]⟩
      ⟨⟨"resource.exec.test", "test", ""⟩, "", false, none, none, [], [], 0⟩
      ⟨⟨"resource.exec.test", "test", ""⟩, "", false, none, none, [], [], 42⟩
      (by decide) (by decide),
    process_rehydrates_outputs.1
      ⟨[.exec ⟨⟨"resource.exec.test", "test", ""⟩, "", false, none, none,
          [], [], 42⟩,
        .uuid ⟨⟨"resource.random_uuid.u", "u", ""⟩, "abc-123"⟩,
        .nomad ⟨⟨"resource.nomad_job.j", "j", "/x"⟩, "dc", ["/j.nomad"],
          ["c1"]⟩]⟩
      ⟨⟨"resource.random_uuid.u", "u", ""⟩, ""⟩
      ⟨⟨"resource.random_uuid.u", "u", ""⟩, "abc-123"⟩ (by decide),
    process_rehydrates_outputs.2.2.1
      ⟨[.exec ⟨⟨"resource.exec.test", "test", ""⟩, "", false, none, none,
          [], [], 42⟩,
        .uuid ⟨⟨"resource.random_uuid.u", "u", ""⟩, "abc-123"⟩,
        .nomad ⟨⟨"resource.nomad_job.j", "j", "/x"⟩, "dc", ["/j.nomad"],
          ["c1"]⟩]⟩
      ⟨⟨"resource.nomad_job.j", "j", "/x"⟩, "dc", ["/j.nomad"], []⟩
      ⟨⟨"resource.nomad_job.j", "j", "/x"⟩, "dc", ["/j.nomad"], ["c1"]⟩
      (by decide),
    process_rehydrates_outputs.2.1 ⟨[]⟩
      ⟨⟨"resource.random_uuid.u", "u", ""⟩, "v0"⟩ (by decide)⟩

/-- C9 (counterexample): an exec combining a purely local target with a
file-system volume — with a fresh empty state (no record for its id) its
`Process()` hook returns a validation error rather than succeeding, refuting
the unconditional "when no record exists, those fields are left unchanged and
Process() still succeeds" (the repository's own test
`TestExecLocalWithVolumesReturnsError` requires this error). -/
theorem exec_process_invalid_counterexample :
    FindResource ⟨[]⟩ "resource.exec.bad" = none ∧
      Exec.Process (.ok ⟨[]⟩)
          ⟨⟨"resource.exec.bad", "bad", "/wd/main.hcl"⟩, "", false, none, none,
            [⟨"/data", "/data"⟩], [], 0⟩ =
        some (⟨⟨"resource.exec.bad", "bad", "/wd/main.hcl"⟩, "", false, none,
          none, [⟨"/data", "/data"⟩], [], 0⟩,
          some "unable to use volumes or networks with local exec") :=
  ⟨rfl, by decide⟩

end Jumppad
